import Mathlib

/-!
Verification development for the campfhir/wsv repository (Go).

The WSV core is embedded shallowly: Go strings and byte slices become
`List Nat` (one entry per byte; all concrete inputs below are ASCII, where
bytes and runes coincide), Go struct mutation becomes explicit state
passing, and fallible methods return a value paired with an optional
error. Definitions follow the Go sources:
  reader/reader.go        (parseLine, Reader.Read, columnName)
  internal/field.go       (SerializeValue; record/field.go duplicates it
                           as Field.SerializeText)
  document package        (Document, documentLine.Append/AppendNull/
                           UpdateField, SortBy and its comparators)
-/

namespace WSV

/-- Byte strings are lists of byte values. -/
abbrev Bytes := List Nat

/-- Convenience: the bytes of an ASCII literal (Char.toNat equals the byte
for code points below 128; every literal used below is ASCII). -/
def strBytes (s : String) : Bytes := s.data.map Char.toNat

/-- Modelled from the spec: utils.IsFieldDelimiter is referenced by the
sources but its file is not in the repository snapshot; per the spec (4.1)
any whitespace is a field delimiter.  We use the ASCII whitespace bytes:
tab, line feed, vertical tab, form feed, carriage return, space. -/
def isFieldDelimiter (b : Nat) : Bool :=
  b == 9 || b == 10 || b == 11 || b == 12 || b == 13 || b == 32

/-- Bool-valued prefix test (Go bytes/strings prefix semantics). -/
def isPrefixOfB : Bytes → Bytes → Bool
  | [], _ => true
  | _ :: _, [] => false
  | a :: as, b :: bs => a == b && isPrefixOfB as bs

/-- Go strings.Contains: does pat occur as a contiguous substring? -/
def containsSub (s pat : Bytes) : Bool :=
  isPrefixOfB pat s ||
    match s with
    | [] => false
    | _ :: t => containsSub t pat

/-- Byte membership (equivalent to single-byte containsSub). -/
def hasByte : Bytes → Nat → Bool
  | [], _ => false
  | b :: t, c => c == b || hasByte t c

/-- Go strings.ContainsFunc over our byte model. -/
def containsFuncB (f : Nat → Bool) (s : Bytes) : Bool := s.any f

/-- Fuel-driven core of Go strings.ReplaceAll (the fuel makes the
recursion structural so that the kernel can evaluate it; fuel at least
the length of the subject is always enough, and every call below uses a
non-empty pattern). Replaces non-overlapping occurrences left to right. -/
def replaceAllF : Nat → Bytes → Bytes → Bytes → Bytes
  | 0, s, _, _ => s
  | _ + 1, [], _, _ => []
  | f + 1, b :: t, pat, rep =>
    if pat ≠ [] ∧ isPrefixOfB pat (b :: t) then
      rep ++ replaceAllF f (List.drop (pat.length - 1) t) pat rep
    else
      b :: replaceAllF f t pat rep

/-- Go strings.ReplaceAll (for the non-empty patterns used by the code). -/
def replaceAll (s pat rep : Bytes) : Bytes := replaceAllF s.length s pat rep

/-- Wrap a rendered value in double quotes (byte 34). -/
def wrapQ (v : Bytes) : Bytes := 34 :: v ++ [34]

/-- Go utf8.RuneCountInString on the byte model: count the bytes that are
not UTF-8 continuation bytes (0x80-0xBF); equals the length on ASCII. -/
def runeCount (s : Bytes) : Nat := (s.filter (fun b => !(128 ≤ b && b < 192))).length

/-- internal.SerializeValue (internal/field.go, lines 55-80), translated
step by step; record/field.go's Field.SerializeText inlines the same
sequence.  Note that the dash check of the source has no !wrapped guard,
so a value containing both a double quote and a dash is wrapped twice. -/
def serializeValue (v0 : Bytes) : Bytes :=
  let v1 := replaceAll v0 [34] [34, 34]
  let p := containsSub v1 [34, 34]
  let v2 := if p then wrapQ v1 else v1
  let q := containsSub v2 [45]
  let v3 := if q then wrapQ v2 else v2
  let wrapped2 := p || q
  let v4 := replaceAll v3 [10] [34, 47, 34]
  let r := containsSub v4 [34, 47, 34] && !wrapped2
  let v5 := if r then wrapQ v4 else v4
  let wrapped3 := wrapped2 || r
  let s := containsFuncB isFieldDelimiter v5 && !wrapped3
  let v6 := if s then wrapQ v5 else v5
  if v6 = [] then [34, 34] else v6

/-- record.Field (record/field.go); internal.Field is an identical copy.
Defaults are the Go zero values, mirroring partial struct literals. -/
structure Field where
  isNull : Bool := false
  value : Bytes := []
  fieldIndex : Nat := 0
  rowIndex : Nat := 0
  fieldName : Bytes := []
  isHeader : Bool := false
deriving DecidableEq, Repr

/-- Field.SerializeText: null renders as a bare dash, otherwise the value
is rendered by the escape/wrap sequence of SerializeValue. -/
def Field.serializeText (f : Field) : Bytes :=
  if f.isNull then [45] else serializeValue f.value

/-- Field.CalculateFieldLength: rune length of the rendered text. -/
def Field.calculateFieldLength (f : Field) : Nat := runeCount f.serializeText

/-- reader.lineField (reader/reader.go): one raw token produced by the
tokenizer.  The RawLine back-reference of the Go struct is omitted (it
merely repeats the function argument). -/
structure LineField where
  value : Bytes := []
  isComment : Bool := false
  isNull : Bool := false
  col : Nat := 0
deriving DecidableEq, Repr

/-- Error kinds of the tokenizer (ErrInvalidNull, ErrBareQuote). -/
inductive ErrKind where
  | invalidNull
  | bareQuote
deriving DecidableEq, Repr

/-- reader.ParseError: line number, 1-based-ish field position and column
position as filled by the Go constructors (unset Go fields are zero). -/
structure ParseErr where
  line : Nat := 0
  fieldPosition : Nat := 0
  columnPosition : Nat := 0
  err : ErrKind
deriving DecidableEq, Repr

/-- Go utf8.DecodeRune on a byte slice, restricted to what the tokenizer
needs: the first byte when it is ASCII, the replacement rune otherwise
(all comparisons made with it in the source are against ASCII runes). -/
def nextRune : Bytes → Nat
  | [] => 65533
  | b :: _ => if b < 128 then b else 65533

/-- Go bytes.IndexFunc with utils.IsFieldDelimiter: index of the first
delimiter byte, none for the Go result -1. -/
def firstDelimIdx : Bytes → Option Nat
  | [] => none
  | b :: t => if isFieldDelimiter b then some 0 else (firstDelimIdx t).map (· + 1)

/-- Go bytes.TrimSuffix: drop one trailing occurrence of suf, if present. -/
def trimSuffix (s suf : Bytes) : Bytes :=
  if List.isSuffixOf suf s then s.take (s.length - suf.length) else s

/-- The test bytesToString(b3, b2, b1) == quote-slash-quote of the source:
it holds exactly when all three window bytes are present and spell 34 47 34
(with fewer than three present bytes the string is shorter than 3). -/
def quoteSlashQuote (b3 b2 : Option Nat) (b1 : Nat) : Bool :=
  b3 == some 34 && b2 == some 47 && b1 == 34

/-- The tokenizer state of parseLine: the mutable locals of the Go loop.
The chained one-byte lookback variables b1..b4 of the source always hold
the current byte and the three preceding ones (shown by unrolling the
shift cascade at the top of the loop; b4 is never read), so they are
recomputed from the line and the index instead of being stored. -/
structure PState where
  doubleQuoted : Bool := false
  isNull : Bool := false
  startDoubleQuote : Nat := 0
  escapedDoubleQuote : Nat := 0
  data : Bytes := []
  str : List LineField := []
deriving DecidableEq, Repr

/-- The code that runs after the loop of parseLine (reader.go 345-356):
unterminated quote, lone-quote data, or flush of the trailing field. -/
def parseLineFinish (n : Nat) (st : PState) : List LineField × Option ParseErr :=
  if st.doubleQuoted then
    (st.str, some { line := n, fieldPosition := st.startDoubleQuote,
                    columnPosition := st.startDoubleQuote, err := .bareQuote })
  else if st.data ≠ [] then
    if st.data = [34] then
      (st.str, some { line := n, fieldPosition := st.startDoubleQuote,
                      columnPosition := st.startDoubleQuote, err := .bareQuote })
    else
      (st.str ++ [{ value := st.data, isComment := false, isNull := st.isNull, col := 0 }], none)
  else (st.str, none)

/-- One-for-one translation of the lineLoop of parseLine (reader.go
222-344).  The first argument is fuel making the recursion structural;
line.length + 1 is always sufficient since every step increments i. -/
def parseLineLoop : Nat → Nat → Bytes → Nat → PState → List LineField × Option ParseErr
  | 0, n, _, _, st => parseLineFinish n st
  | fuel + 1, n, line, i, st =>
    match line.get? i with
    | none => parseLineFinish n st
    | some b0 =>
      let b2 : Option Nat := if 1 ≤ i then line.get? (i - 1) else none
      let b3 : Option Nat := if 2 ≤ i then line.get? (i - 2) else none
      if b0 == 10 then
        parseLineFinish n st
      else if b0 == 35 then
        if !st.doubleQuoted then
          if line.length - i < 2 then parseLineFinish n st
          else
            let cv : LineField :=
              { value := trimSuffix (st.data ++ line.drop (i + 1)) [10],
                isComment := true, isNull := st.isNull, col := i }
            parseLineFinish n { st with data := [], str := st.str ++ [cv] }
        else
          parseLineLoop fuel n line (i + 1) { st with data := st.data ++ [35] }
      else if b0 == 34 then
        if quoteSlashQuote b3 b2 b0 then
          parseLineLoop fuel n line (i + 1) { st with data := trimSuffix st.data [47] ++ [10] }
        else if (b2 == none || isFieldDelimiter (b2.getD 0)) && !st.doubleQuoted then
          parseLineLoop fuel n line (i + 1) { st with doubleQuoted := true, startDoubleQuote := i }
        else if (b3 == none || isFieldDelimiter (b3.getD 0)) && b2 == some 34 &&
            (line.length - 1 == i ||
              (line.length - 1 > i && isFieldDelimiter (nextRune (line.drop (i + 1))))) then
          let ev : LineField := { value := [], isComment := false, isNull := st.isNull, col := i }
          parseLineLoop fuel n line (i + 1)
            { st with data := [], doubleQuoted := false, str := st.str ++ [ev] }
        else if b2 == some 34 && (b3 == none || b3.getD 0 != 34) &&
            !(line.length - 1 > i + 1 && isFieldDelimiter (nextRune (line.drop (i + 1))) &&
              b3 == some 47) &&
            !(line.length - 1 > i + 2 && nextRune (line.drop (i + 1)) == 47 &&
              nextRune (line.drop (i + 2)) == 34) then
          parseLineLoop fuel n line (i + 1) { st with data := st.data ++ [34], escapedDoubleQuote := i }
        else if st.doubleQuoted &&
            (line.length - 1 == i ||
              (line.length - 1 > i && isFieldDelimiter (nextRune (line.drop (i + 1))))) &&
            (b2 == none || b2.getD 0 != 34 || i > st.escapedDoubleQuote) then
          parseLineLoop fuel n line (i + 1) { st with doubleQuoted := false }
        else
          parseLineLoop fuel n line (i + 1) st
      else
        let isNull1 := if b0 == 45 && (b2 == none || isFieldDelimiter (b2.getD 0)) && !st.doubleQuoted
          then true else st.isNull
        let data0 := if quoteSlashQuote b3 b2 b0 then trimSuffix st.data [47] ++ [10] else st.data
        let go2 : Bytes → List LineField × Option ParseErr := fun data1 =>
          if isFieldDelimiter b0 && !st.doubleQuoted then
            if data1 = [] && !isNull1 then
              parseLineLoop fuel n line (i + 1) { st with isNull := isNull1, data := data1 }
            else if data1 = [34] then
              (st.str, some { line := n, fieldPosition := i, columnPosition := 0, err := .bareQuote })
            else
              let fv : LineField := { value := data1, isComment := false, isNull := isNull1, col := i }
              parseLineLoop fuel n line (i + 1)
                { st with isNull := false, data := [], str := st.str ++ [fv] }
          else if isNull1 && b0 == 45 then
            parseLineLoop fuel n line (i + 1) { st with isNull := isNull1, data := data1 }
          else
            parseLineLoop fuel n line (i + 1) { st with isNull := isNull1, data := data1 ++ [b0] }
        if isNull1 && line.length - 1 == i then
          (st.str ++ [{ value := [], isComment := false, isNull := isNull1, col := i }], none)
        else if isNull1 && line.length - 1 > i && firstDelimIdx (line.drop i) ≠ some 1 then
          if b2 == some 45 && isFieldDelimiter b0 then go2 []
          else (st.str, some { line := n, fieldPosition := i, columnPosition := i, err := .invalidNull })
        else go2 data0

/-- reader.parseLine (reader/reader.go, lines 207-357). -/
def parseLine (n : Nat) (line : Bytes) : List LineField × Option ParseErr :=
  parseLineLoop (line.length + 1) n line 0 {}

/-- reader.columnName (reader/reader.go 110-116): resolve a column name by
positional index; out of range yields the empty string, not an error
(utils.GetIndexOfSlice, absent from the snapshot, is an index lookup per
its uses and the spec 4.2). -/
def columnName (headers : List Bytes) (index : Nat) : Bytes :=
  (headers.get? index).getD []

/-- record.SerializeValue applied to a raw token as in the extra-fields
map of Reader.Read (reader.go 441-446): null prints as a dash. -/
def lineFieldRaw (e : LineField) : Bytes :=
  if e.isNull then [45] else serializeValue e.value

/-- reader.InvalidFieldCountError (RawLine omitted). -/
structure FieldCountErr where
  line : Nat := 0
  headers : List Bytes := []
  fields : List Bytes := []
deriving DecidableEq, Repr

/-- The errors Reader.Read can return: io.EOF, ErrReaderEnded, a
*ParseError (tokenizer errors and ErrCommentPlacement), or an
*InvalidFieldCountError. -/
inductive ReadErr where
  | eof
  | readerEnded
  | parse (e : ParseErr)
  | commentPlaced (line fieldPosition columnPosition : Nat)
  | fieldCount (e : FieldCountErr)
deriving DecidableEq, Repr

/-- reader.readerLine (reader_line.go). -/
structure RLine where
  fields : List Field := []
  comment : Bytes := []
  line : Nat := 0
  fieldCount : Nat := 0
  currentField : Nat := 0
  isHeaderLine : Bool := false
deriving DecidableEq, Repr

/-- readerLine.FieldsValues: serialized values of all fields. -/
def RLine.fieldsValues (l : RLine) : List Bytes := l.fields.map Field.serializeText

/-- reader.Reader (reader/reader.go 88-101).  The bufio stream is modelled
as the list of remaining physical lines, already split at line feeds with
the terminators stripped, which is exactly what Reader.readLine hands to
parseLine; offset and the unused AllowPartialError flag are omitted. -/
structure Reader where
  numLine : Nat := 0
  lines : List RLine := []
  headers : List Bytes := []
  includesHeader : Bool := true
  isTabular : Bool := true
  nullTrailingColumns : Bool := false
  ended : Bool := false
  firstDataRow : Nat := 0
  input : List Bytes := []
deriving DecidableEq, Repr

/-- reader.NewReader defaults (tabular, with headers, no null padding). -/
def newReader (input : List Bytes) : Reader := { input := input }

/-- The record field the reader loop builds from one non-comment token of
a data line (the non-header branch of the loop, reader.go 455-461). -/
def builtField (headers : List Bytes) (numLine i : Nat) (f : LineField) : Field :=
  if f.isNull then
    { isNull := true, value := [], fieldName := columnName headers i,
      rowIndex := numLine, fieldIndex := i }
  else
    { value := f.value, fieldName := columnName headers i,
      rowIndex := numLine, fieldIndex := i }

/-- The record fields built from a run of non-comment tokens starting at
loop index i. -/
def builtFields (headers : List Bytes) (numLine : Nat) : Nat → List LineField → List Field
  | _, [] => []
  | i, f :: rest => builtField headers numLine i f :: builtFields headers numLine (i + 1) rest

/-- Accumulator of the per-field loop of Reader.Read (reader.go 414-462):
the parts of the reader and of the line under construction that the loop
mutates. -/
structure LoopAcc where
  headers : List Bytes := []
  fields : List Field := []
  fieldCount : Nat := 0
  comment : Bytes := []
deriving DecidableEq, Repr

/-- The body of the for-loop of Reader.Read over the parsed tokens
(reader.go 414-462), one-for-one; an error aborts the loop carrying the
state reached so far, as the Go code returns the partially built line. -/
def readFieldsLoop (isTabular includesHeader : Bool) (numLine firstDataRow : Nat)
    (allFields : List LineField) :
    Nat → List LineField → LoopAcc → Except (LoopAcc × ReadErr) LoopAcc
  | _, [], acc => .ok acc
  | i, field :: rest, acc =>
    if numLine == firstDataRow && includesHeader && !field.isComment then
      let d : Field := { value := field.value, isNull := field.isNull, isHeader := true,
                         fieldIndex := i, rowIndex := numLine }
      readFieldsLoop isTabular includesHeader numLine firstDataRow allFields (i + 1) rest
        { acc with headers := acc.headers ++ [field.value], fields := acc.fields ++ [d],
                   fieldCount := acc.fieldCount + 1 }
    else if field.isComment then
      if i < acc.headers.length && i ≠ 0 && isTabular then
        .error (acc, .commentPlaced numLine (i + 1) field.col)
      else
        readFieldsLoop isTabular includesHeader numLine firstDataRow allFields (i + 1) rest
          { acc with comment := field.value }
    else
      let fieldCount1 := acc.fieldCount + 1
      if isTabular && includesHeader && acc.headers.length < fieldCount1 then
        .error ({ acc with fieldCount := fieldCount1 },
          .fieldCount { line := numLine, headers := acc.headers,
                        fields := acc.fields.map Field.serializeText ++
                          (allFields.drop i).map lineFieldRaw })
      else
        readFieldsLoop isTabular includesHeader numLine firstDataRow allFields (i + 1) rest
          { acc with fields := acc.fields ++ [builtField acc.headers numLine i field],
                     fieldCount := fieldCount1 }

/-- The trailing-null padding fields of Reader.Read (reader.go 472-482). -/
def padNulls (headers : List Bytes) (numLine o x : Nat) : List Field :=
  (List.range x).map (fun i =>
    { isNull := true, value := [], fieldIndex := o + i, rowIndex := numLine,
      fieldName := columnName headers (o + i), isHeader := false })

/-- The part of Reader.Read after tokenization (reader.go 407-493):
header derivation, the field loop, empty-line early return, null padding
and the under-count check.  Returns the produced line, the optional error
and the updated reader. -/
def processParsedLine (r : Reader) (fields : List LineField) :
    (Option RLine × Option ReadErr) × Reader :=
  let setFirst := decide (fields ≠ []) && r.firstDataRow == 0 &&
    !((fields.headD {}).isComment)
  let r2 := if setFirst then { r with firstDataRow := r.numLine } else r
  let isHeaderLine := setFirst && r2.includesHeader
  match readFieldsLoop r2.isTabular r2.includesHeader r2.numLine r2.firstDataRow fields 0 fields
    { headers := r2.headers } with
  | .error (acc, e) =>
    let line : RLine := { fields := acc.fields, comment := acc.comment, line := r2.numLine,
                          fieldCount := acc.fieldCount, isHeaderLine := isHeaderLine }
    ((some line, some e), { r2 with headers := acc.headers })
  | .ok acc =>
    let r3 := { r2 with headers := acc.headers }
    let line0 : RLine := { fields := acc.fields, comment := acc.comment, line := r2.numLine,
                           fieldCount := acc.fieldCount, isHeaderLine := isHeaderLine }
    if line0.fields = [] then ((some line0, none), r3)
    else
      let line1 :=
        if r3.numLine ≠ 1 && r3.nullTrailingColumns &&
            line0.fields.length < r3.headers.length then
          let x := r3.headers.length - line0.fields.length
          { line0 with fields := line0.fields ++ padNulls r3.headers r3.numLine line0.fields.length x,
                       fieldCount := line0.fieldCount + x }
        else line0
      if r3.isTabular && r3.includesHeader && !r3.nullTrailingColumns &&
          r3.headers.length > line1.fieldCount then
        ((some line1, some (.fieldCount { line := line1.line, headers := r3.headers,
                                          fields := line1.fieldsValues })), r3)
      else
        ((some line1, none), { r3 with lines := r3.lines ++ [line1] })

/-- Reader.Read (reader/reader.go 386-494).  After ErrReaderEnded the
reader is unchanged; io.EOF flips the ended flag; a tokenizer error is
returned with a line that carries no fields (the Go code never copies the
partial tokens into the line it returns). -/
def Reader.read (r : Reader) : (Option RLine × Option ReadErr) × Reader :=
  if r.ended then ((none, some .readerEnded), r)
  else
    match r.input with
    | [] =>
      ((some {}, some .eof), { r with numLine := r.numLine + 1, ended := true })
    | data :: restInput =>
      let r1 := { r with numLine := r.numLine + 1, input := restInput }
      match parseLine r1.numLine data with
      | (_, some e) => ((some { line := r1.numLine }, some (.parse e)), r1)
      | (fields, none) => processParsedLine r1 fields

/-- Errors of the document package (document.go / document_line.go). -/
inductive WErr where
  | startedToWrite
  | fieldCount
  | lineNotFound
  | fieldIndexedNotFound
  | notEnoughLines
  | fieldNameNotFound
  | cannotSortNonTabular
deriving DecidableEq, Repr

/-- document.documentLine (document_line.go).  The doc back-pointer of the
Go struct becomes an explicit Document argument of the line operations,
which address a line by its 1-based number (arena style); nothing else
changes. -/
structure DLine where
  fields : List Field := []
  comment : Bytes := []
  currentField : Nat := 0
  line : Nat := 0
  fieldCount : Nat := 0
deriving DecidableEq, Repr

/-- document.Document (document.go 55-67).  The Go map[int]int of column
widths becomes an association list with the same lookup/update behavior. -/
structure Document where
  tabular : Bool := true
  emitHeaders : Bool := true
  lines : List DLine := []
  maxColumnWidth : List (Nat × Nat) := []
  padding : Bytes := [32, 32]
  currentWriteLine : Nat := 0
  currentField : Nat := 0
  startedWriting : Bool := false
  headers : List Bytes := []
  headerLine : Nat := 0
  hasHeaders : Bool := true
deriving DecidableEq, Repr

/-- document.NewDocument defaults. -/
def newDocument : Document := {}

/-- Lookup in the width map (Go map[int]int access). -/
def mapGet : List (Nat × Nat) → Nat → Option Nat
  | [], _ => none
  | p :: t, k => if p.1 == k then some p.2 else mapGet t k

/-- Update or insert in the width map (Go map[int]int assignment). -/
def mapSet : List (Nat × Nat) → Nat → Nat → List (Nat × Nat)
  | [], k, v => [(k, v)]
  | p :: t, k, v => if p.1 == k then (k, v) :: t else p :: mapSet t k v

/-- The width-map effect of Document.SetMaxColumnWidth (document.go
495-504): record the width if the column is new or the given width is
larger. -/
def setMaxWidthMap (m : List (Nat × Nat)) (col len : Nat) : List (Nat × Nat) :=
  match mapGet m col with
  | none => mapSet m col len
  | some v => if v < len then mapSet m col len else m

/-- Document.SetMaxColumnWidth: the map effect applied to the document. -/
def Document.setMaxColumnWidth (doc : Document) (col len : Nat) : Document :=
  { doc with maxColumnWidth := setMaxWidthMap doc.maxColumnWidth col len }

/-- Document.MaxColumnWidth: none for the Go ErrFieldIndexedNotFound. -/
def Document.maxColumnWidthOf (doc : Document) (col : Nat) : Option Nat :=
  mapGet doc.maxColumnWidth col

/-- Document.Line (document.go 325-331): 1-indexed, ErrLineNotFound
outside the range. -/
def Document.lineAt (doc : Document) (ln : Nat) : Option DLine :=
  if 1 ≤ ln ∧ ln ≤ doc.lines.length then doc.lines.get? (ln - 1) else none

/-- Document.AddLine (document.go 142-156): rejected once writing started;
the new line gets number lines.length + 1, which is returned as its
handle. -/
def Document.addLine (doc : Document) : Except WErr (Document × Nat) :=
  if doc.startedWriting then .error .startedToWrite
  else
    let n := doc.lines.length + 1
    .ok ({ doc with lines := doc.lines ++ [{ line := n }], currentField := 0 }, n)

/-- documentLine.checkFieldIndex (document_line.go 324-344): no check for
non-tabular documents or the header line itself; otherwise the append
index must stay below the header line's field count. -/
def checkFieldIndex (doc : Document) (lnLine fieldInd : Nat) : Option WErr :=
  if !doc.tabular || lnLine == doc.headerLine then none
  else if doc.lines.length ≤ 1 then some .notEnoughLines
  else
    match doc.lineAt doc.headerLine with
    | none => some .lineNotFound
    | some headerLine =>
      if headerLine.fieldCount ≤ fieldInd then some .fieldCount else none

/-- documentLine.Append (document_line.go 222-250), operating on the line
numbered ln of doc.  Any checkFieldIndex failure is surfaced as
ErrFieldCount, as in the source.  The header-range test of the source is
len(Headers())-1 >= fieldInd over Go ints, i.e. fieldInd < len. -/
def Document.appendAt (doc : Document) (ln : Nat) (val : Bytes) : Except WErr Document :=
  match doc.lineAt ln with
  | none => .error .lineNotFound
  | some line =>
    let isHdr := doc.hasHeaders && (doc.headerLine == 0 || ln == doc.headerLine)
    let doc1 := if isHdr then { doc with headerLine := ln } else doc
    let fieldInd := line.fields.length
    match checkFieldIndex doc1 ln fieldInd with
    | some _ => .error .fieldCount
    | none =>
      -- the source first sets FieldName := val on a header field and then
      -- overwrites it from the headers when ln > headerLine and the index
      -- is in range (never the case for a header field); merged here into
      -- one conditional to express the same final name directly
      let name : Bytes :=
        if ln > doc1.headerLine && fieldInd < doc1.headers.length then
          (doc1.headers.get? fieldInd).getD []
        else if isHdr then val else []
      let field2 : Field := { value := val, isHeader := isHdr, fieldName := name,
                              fieldIndex := fieldInd }
      let line' := { line with fields := line.fields ++ [field2],
                               fieldCount := line.fieldCount + 1 }
      let doc2 := { doc1 with lines := doc1.lines.set (ln - 1) line' }
      -- the source updates the width map and then appends the header name;
      -- the two touch different fields, so the header append is applied
      -- first here and the width update last (its condition only reads
      -- hasHeaders and headerLine, which the width update leaves alone)
      let doc2h := if doc2.hasHeaders && ln == doc2.headerLine then
        { doc2 with headers := doc2.headers ++ [val] } else doc2
      .ok (doc2h.setMaxColumnWidth fieldInd field2.calculateFieldLength)

/-- documentLine.AppendNull (document_line.go 252-278).  Note the
header-range test here is len(Headers())-1 > fieldInd, i.e.
fieldInd + 1 < len: strictly tighter than the one of Append. -/
def Document.appendNullAt (doc : Document) (ln : Nat) : Except WErr Document :=
  match doc.lineAt ln with
  | none => .error .lineNotFound
  | some line =>
    let isHdr := doc.hasHeaders && (doc.headerLine == 0 || ln == doc.headerLine)
    let doc1 := if isHdr then { doc with headerLine := ln } else doc
    let fieldInd := line.fields.length
    match checkFieldIndex doc1 ln fieldInd with
    | some _ => .error .fieldCount
    | none =>
      -- same merge of the two FieldName assignments as in appendAt; the
      -- range test of the source is len(Headers())-1 > fieldInd here,
      -- i.e. fieldInd + 1 < len, one column short of the test in Append
      let name : Bytes :=
        if ln > doc1.headerLine && fieldInd + 1 < doc1.headers.length then
          (doc1.headers.get? fieldInd).getD []
        else if isHdr then [45] else []
      let field2 : Field := { isNull := true, isHeader := isHdr, fieldName := name,
                              fieldIndex := fieldInd }
      let line' := { line with fields := line.fields ++ [field2],
                               fieldCount := line.fieldCount + 1 }
      let doc2 := { doc1 with lines := doc1.lines.set (ln - 1) line' }
      -- same reordering of the width update and header append as appendAt
      let doc2h := if doc2.hasHeaders && ln == doc2.headerLine then
        { doc2 with headers := doc2.headers ++ [45] :: [] } else doc2
      .ok (doc2h.setMaxColumnWidth fieldInd field2.calculateFieldLength)

/-- documentLine.UpdateField (document_line.go 303-313): replace the value
at the 0-based index, keep everything else, refresh the width map. -/
def Document.updateFieldAt (doc : Document) (ln fi : Nat) (val : Bytes) : Except WErr Document :=
  match doc.lineAt ln with
  | none => .error .lineNotFound
  | some line =>
    if line.fields.length ≤ fi then .error .fieldIndexedNotFound
    else
      match line.fields.get? fi with
      | none => .error .fieldIndexedNotFound
      | some field =>
        let field' := { field with value := val }
        let line' := { line with fields := line.fields.set fi field' }
        let doc2 := { doc with lines := doc.lines.set (ln - 1) line' }
        .ok (doc2.setMaxColumnWidth fi field'.calculateFieldLength)

/-- documentLine.IsHeader: the line is the document's header line. -/
def DLine.isHeader (doc : Document) (l : DLine) : Bool :=
  doc.hasHeaders && doc.headerLine == l.line

/-- Document.AppendLine (document.go 121-140): AddLine, then Append or
AppendNull for each entry; the line handle is dropped here since the Go
callers of interest ignore it. -/
def Document.appendLine (doc : Document) (vals : List (Bool × Bytes)) : Except WErr Document :=
  match doc.addLine with
  | .error e => .error e
  | .ok (doc1, ln) =>
    vals.foldlM (fun d v =>
      if v.1 then d.appendNullAt ln else d.appendAt ln v.2) doc1

/-- Specification-level rendering of a non-null field, stated the way the
amended serializer claim reads: escape first (double every quote, then
replace every line feed by the quote-slash-quote token), wrap once when
the escaped text contains a quote pair, a dash, the newline token or
whitespace, except that a value containing both a double quote and a dash
is wrapped twice; the empty value renders as a quote pair.  To be compared
with serializeValue, the translation of the implementation. -/
def serializeValueSpec (v : Bytes) : Bytes :=
  let e := replaceAll (replaceAll v [34] [34, 34]) [10] [34, 47, 34]
  if v = [] then [34, 34]
  else if hasByte v 34 && hasByte v 45 then wrapQ (wrapQ e)
  else if containsSub e [34, 34] || containsSub e [45] || containsSub e [34, 47, 34] ||
      containsFuncB isFieldDelimiter e then wrapQ e
  else e

/-- Byte-for-byte form of single-byte-pattern replacement: each byte equal
to b becomes rep, every other byte stays.  Proved below to agree with
replaceAll on the one-byte patterns the serializer uses; stated
recursively so proofs can follow the list structure. -/
def replace1 (b : Nat) (rep : Bytes) : Bytes → Bytes
  | [] => []
  | c :: t => (if b == c then rep else [c]) ++ replace1 b rep t

/-- The b2-is-delimiter-or-line-start test of the tokenizer at index i:
the byte before i is a field delimiter, or i is the line start. -/
def prevDelimOrStart (line : Bytes) (i : Nat) : Bool :=
  let b2 : Option Nat := if 1 ≤ i then line.get? (i - 1) else none
  b2 == none || isFieldDelimiter (b2.getD 0)

/-- A document line with given number and (value, resolved-name) pairs,
as the write path produces it (the first line is the header line). -/
def exLine (n : Nat) (vals : List (Bytes × Bytes)) : DLine :=
  { line := n, fieldCount := vals.length,
    fields := (List.range vals.length).zipWith
      (fun i v => { value := v.1, fieldName := v.2, fieldIndex := i, isHeader := n == 1 }) vals }

/-- Field names of the last line of a document operation result. -/
def lastLineFieldNames (r : Except WErr Document) : List Bytes :=
  match r with
  | .ok d => (d.lines.getLastD {}).fields.map Field.fieldName
  | .error _ => []

/-- The document of the column-name example: header line (A, B) and a data
line holding the single field x, written as the state Append leaves behind
so that the next append can be examined in isolation. -/
def baseDocAB : Document :=
  { lines := [ exLine 1 [(strBytes "A", strBytes "A"), (strBytes "B", strBytes "B")],
               exLine 2 [(strBytes "x", strBytes "A")] ],
    headers := [strBytes "A", strBytes "B"], headerLine := 1,
    maxColumnWidth := [(0, 1), (1, 1)] }

/-- The header line produced by reading A B C with headers enabled. -/
def headerLineABC : RLine :=
  { fields := [ { value := strBytes "A", fieldIndex := 0, rowIndex := 1, isHeader := true },
                { value := strBytes "B", fieldIndex := 1, rowIndex := 1, isHeader := true },
                { value := strBytes "C", fieldIndex := 2, rowIndex := 1, isHeader := true } ],
    line := 1, fieldCount := 3, isHeaderLine := true }

/-- The reader state after consuming the header line A B C: headers
established, first data row fixed, one line stored. -/
def readerABC (rest : List Bytes) (ntc : Bool) : Reader :=
  { numLine := 1, lines := [headerLineABC], nullTrailingColumns := ntc,
    headers := [strBytes "A", strBytes "B", strBytes "C"],
    firstDataRow := 1, input := rest }

/-- C2: the serializer does not protect a value containing a hash sign, so
the round-trip contract of the spec fails on the code: the field value
a#b (itself produced by parsing a quoted token) serializes to the bare
bytes a#b, and re-parsing that line yields no data field at all but a
comment ab: values, null flags and comments are not reproduced. -/
theorem C2_hash_value_roundtrip_eval :
    serializeValue (strBytes "a#b") = strBytes "a#b" ∧
    parseLine 1 (strBytes "\"a#b\"") =
      ([{ value := strBytes "a#b", isComment := false, isNull := false, col := 0 }], none) ∧
    parseLine 2 (strBytes "a#b") =
      ([{ value := strBytes "ab", isComment := true, isNull := false, col := 1 }], none) :=
  ⟨by decide, by decide, by decide⟩

/-- C8: on the line x "y the tokenizer stops at the bare quote and returns
the already parsed field x together with the error, but Reader.Read drops
that partial row: the line it returns carries no fields, only the error
(its own documentation promises the partial record). -/
theorem C8_partial_row_dropped :
    parseLine 1 (strBytes "x \"y") =
      ([{ value := strBytes "x", isComment := false, isNull := false, col := 1 }],
       some { line := 1, fieldPosition := 2, columnPosition := 2, err := .bareQuote }) ∧
    (newReader [strBytes "x \"y"]).read.1 =
      (some { line := 1 },
       some (.parse { line := 1, fieldPosition := 2, columnPosition := 2, err := .bareQuote })) :=
  ⟨by decide, by decide⟩

/-- C9: column-name resolution.  columnName resolves an in-range index to
the header at that index and an out-of-range index to the empty name; the
Append write path resolves the last in-range column, but AppendNull,
whose range test is off by one, leaves the resolved name of a null
appended in the last column empty instead of the header name B. -/
theorem C9_appendNull_last_column_name :
    lastLineFieldNames (baseDocAB.appendNullAt 2) = [strBytes "A", []] ∧
    lastLineFieldNames (baseDocAB.appendAt 2 (strBytes "y")) = [strBytes "A", strBytes "B"] ∧
    columnName [strBytes "A", strBytes "B"] 1 = strBytes "B" ∧
    columnName [strBytes "A", strBytes "B"] 5 = [] :=
  ⟨by decide, by decide, by decide, by decide⟩

/-- C7: exhaustion behavior of the reader.  Once the ended flag is set,
every call returns the reader-ended error with no line and leaves the
reader unchanged (so all subsequent calls do the same, as the third
conjunct spells out); the end-of-input sentinel itself is produced
exactly at the transition, which also sets the flag, so it is returned
exactly once and no later call can return another successful line. -/
theorem C7_reader_exhaustion :
    (∀ r : Reader, r.ended = true → r.read = ((none, some .readerEnded), r)) ∧
    (∀ r : Reader, r.ended = false → r.input = [] →
      r.read = ((some {}, some .eof), { r with numLine := r.numLine + 1, ended := true })) ∧
    (∀ r : Reader, r.ended = true →
      ((r.read).2).read = ((none, some .readerEnded), (r.read).2)) := by
  refine ⟨?_, ?_, ?_⟩
  · intro r h
    simp [Reader.read, h]
  · intro r h hi
    simp [Reader.read, h, hi]
  · intro r h
    simp [Reader.read, h]

/-- C7 witness: a fresh empty reader yields the end-of-input sentinel and
flips its ended flag; a reader with the flag set returns the
reader-ended error unchanged. -/
theorem C7_witness :
    (newReader []).read =
      ((some {}, some .eof),
       { newReader [] with numLine := (newReader []).numLine + 1, ended := true }) ∧
    ({ ended := true } : Reader).read = ((none, some .readerEnded), { ended := true }) :=
  ⟨C7_reader_exhaustion.2.1 (newReader []) rfl rfl,
   C7_reader_exhaustion.1 { ended := true } rfl⟩

theorem mapGet_mapSet_self (m : List (Nat × Nat)) (k v : Nat) :
    mapGet (mapSet m k v) k = some v := by
  induction m with
  | nil => simp [mapGet, mapSet]
  | cons p t ih =>
    by_cases h : p.1 = k
    · simp [mapGet, mapSet, h]
    · simp [mapGet, mapSet, h, ih]

theorem mapGet_mapSet_other (m : List (Nat × Nat)) (k v col : Nat) (h : col ≠ k) :
    mapGet (mapSet m k v) col = mapGet m col := by
  induction m with
  | nil => simp [mapGet, mapSet, Ne.symm h]
  | cons p t ih =>
    by_cases hp : p.1 = k
    · subst hp
      simp [mapGet, mapSet, Ne.symm h]
    · simp [mapGet, mapSet, hp, ih]

/-- The SetMaxColumnWidth map effect never lowers a recorded width. -/
theorem setMaxWidthMap_mono (m : List (Nat × Nat)) (c l col w : Nat)
    (h : mapGet m col = some w) :
    ∃ w', mapGet (setMaxWidthMap m c l) col = some w' ∧ w ≤ w' := by
  unfold setMaxWidthMap
  cases hm : mapGet m c with
  | none =>
    by_cases hc : col = c
    · subst hc; rw [h] at hm; cases hm
    · refine ⟨w, ?_, le_rfl⟩
      simpa [mapGet_mapSet_other _ _ _ _ hc] using h
  | some v =>
    by_cases hv : v < l
    · simp only [if_pos hv]
      by_cases hc : col = c
      · subst hc
        rw [h] at hm
        injection hm with hw
        subst hw
        exact ⟨l, by simp [mapGet_mapSet_self], le_of_lt hv⟩
      · refine ⟨w, ?_, le_rfl⟩
        simpa [mapGet_mapSet_other _ _ _ _ hc] using h
    · simp only [if_neg hv]
      exact ⟨w, h, le_rfl⟩

/-- C10: the tracked maximum rendered column width is monotonically
non-decreasing under every mutation: whatever width a column has recorded
before an UpdateField, Append or AppendNull that succeeds, the column's
recorded width afterwards is at least as large (in particular, updating a
field to a shorter value never lowers it). -/
theorem C10_column_width_monotone :
    (∀ (doc : Document) (ln fi : Nat) (v : Bytes) (d' : Document) (col w : Nat),
       doc.updateFieldAt ln fi v = .ok d' → doc.maxColumnWidthOf col = some w →
       ∃ w', d'.maxColumnWidthOf col = some w' ∧ w ≤ w') ∧
    (∀ (doc : Document) (ln : Nat) (v : Bytes) (d' : Document) (col w : Nat),
       doc.appendAt ln v = .ok d' → doc.maxColumnWidthOf col = some w →
       ∃ w', d'.maxColumnWidthOf col = some w' ∧ w ≤ w') ∧
    (∀ (doc : Document) (ln : Nat) (d' : Document) (col w : Nat),
       doc.appendNullAt ln = .ok d' → doc.maxColumnWidthOf col = some w →
       ∃ w', d'.maxColumnWidthOf col = some w' ∧ w ≤ w') := by
  refine ⟨?_, ?_, ?_⟩
  · intro doc ln fi v d' col w h hw
    unfold Document.updateFieldAt at h
    unfold Document.maxColumnWidthOf at hw ⊢
    split at h
    · cases h
    case _ line hline =>
      split at h
      · cases h
      split at h
      · cases h
      case _ field hf =>
        rw [Except.ok.injEq] at h
        subst h
        exact setMaxWidthMap_mono _ _ _ _ _ hw
  · intro doc ln v d' col w h hw
    unfold Document.appendAt at h
    unfold Document.maxColumnWidthOf at hw ⊢
    split at h
    · cases h
    case _ line hline =>
      dsimp only at h
      split at h
      · cases h
      case _ hchk =>
        rw [Except.ok.injEq] at h
        subst h
        show ∃ w', mapGet (setMaxWidthMap _ _ _) col = some w' ∧ w ≤ w'
        apply setMaxWidthMap_mono
        simp only [apply_ite Document.maxColumnWidth, ite_self]
        exact hw
  · intro doc ln d' col w h hw
    unfold Document.appendNullAt at h
    unfold Document.maxColumnWidthOf at hw ⊢
    split at h
    · cases h
    case _ line hline =>
      dsimp only at h
      split at h
      · cases h
      case _ hchk =>
        rw [Except.ok.injEq] at h
        subst h
        show ∃ w', mapGet (setMaxWidthMap _ _ _) col = some w' ∧ w ≤ w'
        apply setMaxWidthMap_mono
        simp only [apply_ite Document.maxColumnWidth, ite_self]
        exact hw

/-- C10 witness: updating the one-byte field x of the example document to
a four-byte value keeps column 0's recorded width at least 1. -/
theorem C10_witness :
    ∃ (d' : Document) (w' : Nat), baseDocAB.updateFieldAt 2 0 (strBytes "zzzz") = .ok d' ∧
      d'.maxColumnWidthOf 0 = some w' ∧ 1 ≤ w' := by
  obtain ⟨d', hd⟩ : ∃ d', baseDocAB.updateFieldAt 2 0 (strBytes "zzzz") = .ok d' := ⟨_, rfl⟩
  obtain ⟨w', hw', hle⟩ :=
    C10_column_width_monotone.1 baseDocAB 2 0 (strBytes "zzzz") d' 0 1 hd (by decide)
  exact ⟨d', w', hd, hw', hle⟩

theorem readFieldsLoop_progress (numLine firstDataRow : Nat) (allFields : List LineField)
    (hnf : (numLine == firstDataRow) = false) :
    ∀ (pre suffix : List LineField) (i : Nat) (acc : LoopAcc),
      (∀ f ∈ pre, f.isComment = false) →
      acc.fieldCount + pre.length ≤ acc.headers.length →
      readFieldsLoop true true numLine firstDataRow allFields i (pre ++ suffix) acc =
        readFieldsLoop true true numLine firstDataRow allFields (i + pre.length) suffix
          { headers := acc.headers, comment := acc.comment,
            fields := acc.fields ++ builtFields acc.headers numLine i pre,
            fieldCount := acc.fieldCount + pre.length } := by
  intro pre
  induction pre with
  | nil =>
    intro suffix i acc _ _
    simp [builtFields]
  | cons f rest ih =>
    intro suffix i acc hnc hb
    have hfc : f.isComment = false := hnc f (List.mem_cons_self f rest)
    have hrest : ∀ g ∈ rest, g.isComment = false := fun g hg => hnc g (List.mem_cons_of_mem f hg)
    have hlt : ¬(acc.headers.length < acc.fieldCount + 1) := by
      simp only [List.length_cons] at hb
      omega
    simp only [List.cons_append, readFieldsLoop, hnf, hfc, Bool.false_and, Bool.and_false,
      Bool.false_or, Bool.not_false, Bool.and_true, if_false, Bool.true_and,
      decide_eq_true_eq, if_neg hlt, Bool.false_eq_true, List.append_eq]
    rw [ih suffix (i + 1)
      { headers := acc.headers, comment := acc.comment,
        fields := acc.fields ++ [builtField acc.headers numLine i f],
        fieldCount := acc.fieldCount + 1 } hrest
      (by simp only [List.length_cons] at hb; simpa using by omega)]
    simp only [builtFields, List.length_cons]
    congr 1
    · omega
    · simp [List.append_assoc]
      omega

theorem serializeText_builtField (H : List Bytes) (n i : Nat) (f : LineField) :
    (builtField H n i f).serializeText = lineFieldRaw f := by
  by_cases hn : f.isNull = true <;>
    simp [builtField, Field.serializeText, lineFieldRaw, hn]

theorem map_serializeText_builtFields (H : List Bytes) (n : Nat) :
    ∀ (fs : List LineField) (i : Nat),
      (builtFields H n i fs).map Field.serializeText = fs.map lineFieldRaw := by
  intro fs
  induction fs with
  | nil => intro i; simp [builtFields]
  | cons f rest ih => intro i; simp [builtFields, serializeText_builtField, ih]

theorem length_builtFields (H : List Bytes) (n : Nat) :
    ∀ (fs : List LineField) (i : Nat), (builtFields H n i fs).length = fs.length := by
  intro fs
  induction fs with
  | nil => intro i; simp [builtFields]
  | cons f rest ih => intro i; simp [builtFields, ih]

theorem readFieldsLoop_data_overcount (numLine firstDataRow : Nat)
    (hnf : (numLine == firstDataRow) = false) :
    ∀ (fs allFields : List LineField) (i : Nat) (acc : LoopAcc),
      (∀ f ∈ fs, f.isComment = false) →
      allFields.drop i = fs →
      acc.fieldCount ≤ acc.headers.length →
      acc.headers.length < acc.fieldCount + fs.length →
      ∃ acc', readFieldsLoop true true numLine firstDataRow allFields i fs acc =
        .error (acc', .fieldCount { line := numLine, headers := acc.headers,
                                    fields := acc.fields.map Field.serializeText ++
                                      fs.map lineFieldRaw }) := by
  intro fs
  induction fs with
  | nil =>
    intro all i acc _ _ hle hover
    simp only [List.length_nil, Nat.add_zero] at hover
    omega
  | cons f rest ih =>
    intro all i acc hnc hdrop hle hover
    have hfc : f.isComment = false := hnc f (List.mem_cons_self f rest)
    have hrest : ∀ g ∈ rest, g.isComment = false := fun g hg => hnc g (List.mem_cons_of_mem f hg)
    by_cases hcase : acc.headers.length < acc.fieldCount + 1
    · refine ⟨{ acc with fieldCount := acc.fieldCount + 1 }, ?_⟩
      simp only [readFieldsLoop, hnf, hfc, Bool.false_and, Bool.and_false, Bool.false_or,
        Bool.not_false, Bool.and_true, Bool.true_and, decide_eq_true_eq, if_pos hcase,
        Bool.false_eq_true, if_false, hdrop]
    · have hdrop' : all.drop (i + 1) = rest := by
        have h1 : all.drop (i + 1) = (all.drop i).drop 1 := by
          rw [List.drop_drop, Nat.add_comm]
        rw [h1, hdrop]
        rfl
      obtain ⟨acc', hrec⟩ := ih all (i + 1)
        { acc with fields := acc.fields ++ [builtField acc.headers numLine i f],
                   fieldCount := acc.fieldCount + 1 }
        hrest hdrop' (by simpa using by omega)
        (by simp only [List.length_cons] at hover; simpa using by omega)
      refine ⟨acc', ?_⟩
      simp only [readFieldsLoop, hnf, hfc, Bool.false_and, Bool.and_false, Bool.false_or,
        Bool.not_false, Bool.and_true, Bool.true_and, decide_eq_true_eq, if_neg hcase,
        Bool.false_eq_true, if_false]
      rw [hrec]
      simp [serializeText_builtField, List.append_assoc]

theorem readFieldsLoop_comment_misplaced_step (numLine firstDataRow : Nat)
    (allFields : List LineField) (i : Nat) (c : LineField) (rest : List LineField)
    (acc : LoopAcc) (hc : c.isComment = true) (hi : i < acc.headers.length) (h0 : i ≠ 0) :
    readFieldsLoop true true numLine firstDataRow allFields i (c :: rest) acc =
      .error (acc, .commentPlaced numLine (i + 1) c.col) := by
  simp [readFieldsLoop, hc, hi, h0]

theorem readFieldsLoop_comment_ok_step (numLine firstDataRow : Nat)
    (allFields : List LineField) (i : Nat) (c : LineField) (rest : List LineField)
    (acc : LoopAcc) (hc : c.isComment = true) (hok : i = 0 ∨ acc.headers.length ≤ i) :
    readFieldsLoop true true numLine firstDataRow allFields i (c :: rest) acc =
      readFieldsLoop true true numLine firstDataRow allFields (i + 1) rest
        { acc with comment := c.value } := by
  rcases hok with h0 | hge
  · subst h0
    simp [readFieldsLoop, hc]
  · have : ¬(i < acc.headers.length) := by omega
    simp [readFieldsLoop, hc, this]

set_option maxHeartbeats 1600000 in
/-- C5: tabular field-count enforcement, stated on processParsedLine (the
post-tokenization part of Reader.Read) for a data line (headers already
established) of non-comment tokens, plus the spec's concrete example.
(a) More fields than headers: a field-count error carrying the matched
fields plus the extra raw values (together: the serialization of every
token).  (b) Fewer fields with padding disabled: a field-count error.
(c) Fewer fields with padding enabled: the missing trailing columns are
synthesized as nulls whose names resolve from the header (padNulls uses
columnName).  (d) Header A B C with data row x y: padding disabled gives
the field-count error, padding enabled reads the row as x, y, null-named-C. -/
theorem C5_field_count_enforcement :
    (∀ (r : Reader) (fs : List LineField),
      r.isTabular = true → r.includesHeader = true → (r.firstDataRow == 0) = false →
      (r.numLine == r.firstDataRow) = false → (∀ f ∈ fs, f.isComment = false) →
      r.headers.length < fs.length →
      ∃ rl r', processParsedLine r fs =
        ((some rl, some (.fieldCount { line := r.numLine, headers := r.headers,
                                       fields := fs.map lineFieldRaw })), r')) ∧
    (∀ (r : Reader) (fs : List LineField),
      r.isTabular = true → r.includesHeader = true → (r.firstDataRow == 0) = false →
      (r.numLine == r.firstDataRow) = false → (∀ f ∈ fs, f.isComment = false) →
      fs ≠ [] → fs.length < r.headers.length → r.nullTrailingColumns = false →
      ∃ rl r', processParsedLine r fs =
        ((some rl, some (.fieldCount { line := r.numLine, headers := r.headers,
                                       fields := fs.map lineFieldRaw })), r')) ∧
    (∀ (r : Reader) (fs : List LineField),
      r.isTabular = true → r.includesHeader = true → (r.firstDataRow == 0) = false →
      (r.numLine == r.firstDataRow) = false → (∀ f ∈ fs, f.isComment = false) →
      fs ≠ [] → fs.length < r.headers.length → r.nullTrailingColumns = true →
      r.numLine ≠ 1 →
      ∃ rl r', processParsedLine r fs = ((some rl, none), r') ∧
        rl.fields = builtFields r.headers r.numLine 0 fs ++
          padNulls r.headers r.numLine fs.length (r.headers.length - fs.length) ∧
        rl.fieldCount = r.headers.length ∧
        rl.fields.length = r.headers.length) ∧
    (newReader [strBytes "A B C", strBytes "x y"]).read =
      ((some headerLineABC, none), readerABC [strBytes "x y"] false) ∧
    (readerABC [strBytes "x y"] false).read.1.2 =
      some (.fieldCount { line := 2, headers := [strBytes "A", strBytes "B", strBytes "C"],
                          fields := [strBytes "x", strBytes "y"] }) ∧
    ({ newReader [strBytes "A B C", strBytes "x y"] with nullTrailingColumns := true }).read =
      ((some headerLineABC, none), readerABC [strBytes "x y"] true) ∧
    (readerABC [strBytes "x y"] true).read.1 =
      (some { fields := [ { value := strBytes "x", fieldName := strBytes "A", fieldIndex := 0,
                            rowIndex := 2 },
                          { value := strBytes "y", fieldName := strBytes "B", fieldIndex := 1,
                            rowIndex := 2 },
                          { isNull := true, value := [], fieldName := strBytes "C",
                            fieldIndex := 2, rowIndex := 2 } ],
              comment := [], line := 2, fieldCount := 3, isHeaderLine := false }, none) := by
  refine ⟨?_, ?_, ?_, by decide, by decide, by decide, by decide⟩
  · intro r fs hT hH hf0 hnf hnc hover
    obtain ⟨acc', hrec⟩ := readFieldsLoop_data_overcount r.numLine r.firstDataRow hnf fs fs 0
      { headers := r.headers } hnc (by simp) (by simp) (by simpa using hover)
    unfold processParsedLine
    simp only [hf0, Bool.and_false, Bool.false_and, Bool.false_eq_true, if_false, hT, hH]
    rw [hrec]
    exact ⟨_, _, rfl⟩
  · intro r fs hT hH hf0 hnf hnc hne hunder hntc
    have hprog := readFieldsLoop_progress r.numLine r.firstDataRow fs hnf fs [] 0
      { headers := r.headers } hnc (by simp; omega)
    rw [List.append_nil] at hprog
    have hfl : (builtFields r.headers r.numLine 0 fs).length = fs.length :=
      length_builtFields _ _ _ _
    have hnonempty : ¬(builtFields r.headers r.numLine 0 fs = []) := by
      intro hh
      rw [hh] at hfl
      simp at hfl
      exact hne (List.eq_nil_of_length_eq_zero hfl.symm)
    unfold processParsedLine
    simp only [hf0, Bool.and_false, Bool.false_and, Bool.false_eq_true, if_false, hT, hH]
    rw [hprog]
    simp only [readFieldsLoop]
    simp only [List.nil_append, Nat.zero_add, hntc, Bool.and_false, Bool.false_and,
      Bool.false_eq_true, if_false, if_neg hnonempty, Bool.not_false, Bool.and_true,
      Bool.true_and, decide_eq_true_eq]
    rw [if_pos (by omega)]
    simp only [RLine.fieldsValues, map_serializeText_builtFields]
    exact ⟨_, _, rfl⟩
  · intro r fs hT hH hf0 hnf hnc hne hunder hntc hn1
    have hprog := readFieldsLoop_progress r.numLine r.firstDataRow fs hnf fs [] 0
      { headers := r.headers } hnc (by simp; omega)
    rw [List.append_nil] at hprog
    have hfl : (builtFields r.headers r.numLine 0 fs).length = fs.length :=
      length_builtFields _ _ _ _
    have hnonempty : ¬(builtFields r.headers r.numLine 0 fs = []) := by
      intro hh
      rw [hh] at hfl
      simp at hfl
      exact hne (List.eq_nil_of_length_eq_zero hfl.symm)
    unfold processParsedLine
    simp only [hf0, Bool.and_false, Bool.false_and, Bool.false_eq_true, if_false, hT, hH]
    rw [hprog]
    simp only [readFieldsLoop]
    simp only [List.nil_append, Nat.zero_add, hntc, Bool.and_true, Bool.true_and,
      if_neg hnonempty, decide_eq_true_eq, hfl]
    have hpadc : (decide (r.numLine ≠ 1) && decide (fs.length < r.headers.length)) = true := by
      simp [hn1, hunder]
    simp only [hpadc, if_true, Bool.not_true, Bool.false_and, Bool.false_eq_true, if_false]
    refine ⟨_, _, rfl, rfl, by simp; omega, ?_⟩
    simp [padNulls, hfl]
    omega

/-- C5 witness: the undercount clause applied to the concrete reader state
after the header A B C, processing the two tokens of the row x y on line 2
with padding disabled. -/
theorem C5_witness :
    ∃ rl r', processParsedLine { readerABC [] false with numLine := 2 }
        [{ value := strBytes "x", col := 1 }, { value := strBytes "y" }] =
      ((some rl, some (.fieldCount { line := 2,
                                     headers := [strBytes "A", strBytes "B", strBytes "C"],
                                     fields := [strBytes "x", strBytes "y"] })), r') := by
  have h := C5_field_count_enforcement.2.1 { readerABC [] false with numLine := 2 }
    [{ value := strBytes "x", col := 1 }, { value := strBytes "y" }]
    rfl rfl (by decide) (by decide) (by decide) (by decide) (by decide) rfl
  simpa [lineFieldRaw] using h

set_option maxHeartbeats 1600000 in
/-- C6: comment placement in tabular mode with headers.  A comment token
is accepted as the line's first token, or once exactly the
header-declared number of data fields has been supplied, in which case it
becomes the line's comment; at any other position (after at least one but
fewer than all data fields) the loop stops with the comment-placement
error.  Concretely, with headers A B C, the line 1 #c 2 yields the
placement error and 1 2 3 #c succeeds with comment c. -/
theorem C6_comment_placement :
    (∀ (H : List Bytes) (numLine fdr : Nat) (pre : List LineField) (c : LineField),
      (numLine == fdr) = false → pre ≠ [] → (∀ f ∈ pre, f.isComment = false) →
      c.isComment = true → pre.length < H.length →
      ∃ acc', readFieldsLoop true true numLine fdr (pre ++ [c]) 0 (pre ++ [c]) { headers := H } =
        .error (acc', .commentPlaced numLine (pre.length + 1) c.col)) ∧
    (∀ (H : List Bytes) (numLine fdr : Nat) (pre : List LineField) (c : LineField),
      (numLine == fdr) = false → (∀ f ∈ pre, f.isComment = false) →
      c.isComment = true → pre.length = H.length →
      readFieldsLoop true true numLine fdr (pre ++ [c]) 0 (pre ++ [c]) { headers := H } =
        .ok { headers := H, comment := c.value, fields := builtFields H numLine 0 pre,
              fieldCount := pre.length }) ∧
    (∀ (numLine fdr : Nat) (all rest : List LineField) (c : LineField) (acc : LoopAcc),
      c.isComment = true →
      readFieldsLoop true true numLine fdr all 0 (c :: rest) acc =
        readFieldsLoop true true numLine fdr all 1 rest { acc with comment := c.value }) ∧
    (newReader [strBytes "A B C", strBytes "1 #c 2"]).read =
      ((some headerLineABC, none), readerABC [strBytes "1 #c 2"] false) ∧
    (readerABC [strBytes "1 #c 2"] false).read.1 =
      (some { fields := [ { value := strBytes "1", fieldName := strBytes "A", fieldIndex := 0,
                            rowIndex := 2 } ],
              comment := [], line := 2, fieldCount := 1, isHeaderLine := false },
       some (.commentPlaced 2 2 2)) ∧
    (readerABC [strBytes "1 2 3 #c"] false).read.1 =
      (some { fields := [ { value := strBytes "1", fieldName := strBytes "A", fieldIndex := 0,
                            rowIndex := 2 },
                          { value := strBytes "2", fieldName := strBytes "B", fieldIndex := 1,
                            rowIndex := 2 },
                          { value := strBytes "3", fieldName := strBytes "C", fieldIndex := 2,
                            rowIndex := 2 } ],
              comment := strBytes "c", line := 2, fieldCount := 3, isHeaderLine := false },
       none) := by
  refine ⟨?_, ?_, ?_, by decide, by decide, by decide⟩
  · intro H numLine fdr pre c hnf hne hnc hc hlt
    rw [readFieldsLoop_progress numLine fdr (pre ++ [c]) hnf pre [c] 0 { headers := H } hnc
      (by simp; omega)]
    rw [readFieldsLoop_comment_misplaced_step numLine fdr (pre ++ [c]) (0 + pre.length) c []
      _ hc (by simpa using hlt) (by simpa using hne)]
    simp only [Nat.zero_add, List.nil_append]
    exact ⟨_, rfl⟩
  · intro H numLine fdr pre c hnf hnc hc hlen
    rw [readFieldsLoop_progress numLine fdr (pre ++ [c]) hnf pre [c] 0 { headers := H } hnc
      (by simp; omega)]
    rw [readFieldsLoop_comment_ok_step numLine fdr (pre ++ [c]) (0 + pre.length) c []
      _ hc (Or.inr (by simp [hlen]))]
    simp [readFieldsLoop]
  · intro numLine fdr all rest c acc hc
    exact readFieldsLoop_comment_ok_step numLine fdr all 0 c rest acc hc (Or.inl rfl)

/-- C6 witness: the misplaced clause applied to the tokens of the line
1 #c 2 (one data field, then the comment) against three headers. -/
theorem C6_witness :
    ∃ acc', readFieldsLoop true true 2 1
        ([{ value := strBytes "1", col := 1 }] ++ [{ value := strBytes "c 2", isComment := true, col := 2 }])
        0
        ([{ value := strBytes "1", col := 1 }] ++ [{ value := strBytes "c 2", isComment := true, col := 2 }])
        { headers := [strBytes "A", strBytes "B", strBytes "C"] } =
      .error (acc', .commentPlaced 2 2 2) := by
  have h := C6_comment_placement.1 [strBytes "A", strBytes "B", strBytes "C"] 2 1
    [{ value := strBytes "1", col := 1 }] { value := strBytes "c 2", isComment := true, col := 2 }
    (by decide) (by decide) (by decide) (by decide) (by decide)
  simpa using h

theorem delim_ne_facts (c : Nat) (h : isFieldDelimiter c = true) :
    c ≠ 35 ∧ c ≠ 34 ∧ c ≠ 45 := by
  simp only [isFieldDelimiter, Bool.or_eq_true, beq_iff_eq] at h
  omega

theorem parseLineLoop_dash_end (fuel n : Nat) (line : Bytes) (i : Nat) (st : PState)
    (hget : line.get? i = some 45) (hprev : prevDelimOrStart line i = true)
    (hdq : st.doubleQuoted = false) (hend : line.length - 1 = i) :
    parseLineLoop (fuel + 1) n line i st =
      (st.str ++ [{ value := [], isComment := false, isNull := true, col := i }], none) := by
  rw [List.get?_eq_getElem?] at hget
  simp [prevDelimOrStart] at hprev
  simp [parseLineLoop, quoteSlashQuote, hget, hprev, hdq, hend]

theorem parseLineLoop_dash_invalid (fuel n : Nat) (line : Bytes) (i : Nat) (st : PState)
    (hget : line.get? i = some 45) (hprev : prevDelimOrStart line i = true)
    (hdq : st.doubleQuoted = false) (hlt : i < line.length - 1)
    (hfd : firstDelimIdx (line.drop i) ≠ some 1) :
    parseLineLoop (fuel + 1) n line i st =
      (st.str, some { line := n, fieldPosition := i, columnPosition := i,
                      err := .invalidNull }) := by
  rw [List.get?_eq_getElem?] at hget
  simp [prevDelimOrStart] at hprev
  simp [parseLineLoop, quoteSlashQuote, hget, hprev, hdq, hfd, Nat.ne_of_gt hlt, hlt,
    show isFieldDelimiter 45 = false from rfl]

theorem parseLineLoop_dash_cont (fuel n : Nat) (line : Bytes) (i : Nat) (st : PState)
    (hget : line.get? i = some 45) (hprev : prevDelimOrStart line i = true)
    (hdq : st.doubleQuoted = false) (hlt : i < line.length - 1)
    (hfd : firstDelimIdx (line.drop i) = some 1) :
    parseLineLoop (fuel + 1) n line i st =
      parseLineLoop fuel n line (i + 1) { st with isNull := true } := by
  rw [List.get?_eq_getElem?] at hget
  simp [prevDelimOrStart] at hprev
  simp [parseLineLoop, quoteSlashQuote, hget, hprev, hdq, hfd, Nat.ne_of_gt hlt, hlt,
    show isFieldDelimiter 45 = false from rfl]

theorem parseLineLoop_nullDelim_end (fuel n : Nat) (line : Bytes) (i : Nat) (st : PState)
    (c : Nat) (hget : line.get? i = some c) (hdelim : isFieldDelimiter c = true)
    (h10 : c ≠ 10) (hnull : st.isNull = true) (hend : line.length - 1 = i) :
    parseLineLoop (fuel + 1) n line i st =
      (st.str ++ [{ value := [], isComment := false, isNull := true, col := i }], none) := by
  obtain ⟨h35, h34, h45⟩ := delim_ne_facts c hdelim
  rw [List.get?_eq_getElem?] at hget
  simp [parseLineLoop, quoteSlashQuote, hget, h10, h35, h34, h45, hnull, hend]

theorem parseLineLoop_nullDelim_emit (fuel n : Nat) (line : Bytes) (i : Nat) (st : PState)
    (c : Nat) (hget : line.get? i = some c) (hdelim : isFieldDelimiter c = true)
    (h10 : c ≠ 10) (hnull : st.isNull = true)
    (hdq : st.doubleQuoted = false) (h1 : 1 ≤ i) (h2 : line.get? (i - 1) = some 45)
    (hlt : i < line.length - 1) :
    parseLineLoop (fuel + 1) n line i st =
      parseLineLoop fuel n line (i + 1)
        { st with isNull := false, data := [],
                  str := st.str ++ [{ value := [], isComment := false, isNull := true,
                                      col := i }] } := by
  obtain ⟨h35, h34, h45⟩ := delim_ne_facts c hdelim
  have hlen : i < line.length := by
    by_contra hle
    rw [List.get?_eq_none.mpr (Nat.le_of_not_lt hle)] at hget
    exact Option.noConfusion hget
  have hfd : firstDelimIdx (line.drop i) ≠ some 1 := by
    have hc : c = line.get ⟨i, hlen⟩ := by
      have hq := List.get?_eq_get hlen
      rw [hget] at hq
      exact Option.some.inj hq
    rw [List.get_eq_getElem] at hc
    have ht : line.drop i = c :: line.drop (i + 1) := by
      rw [List.drop_eq_getElem_cons hlen, ← hc]
    rw [ht]
    simp [firstDelimIdx, hdelim]
  rw [List.get?_eq_getElem?] at hget
  rw [List.get?_eq_getElem?] at h2
  simp [parseLineLoop, quoteSlashQuote, hget, h10, h35, h34, h45, hnull, hdq,
    h1, h2, hdelim, Nat.ne_of_gt hlt, hlt, hfd]

theorem parseLineLoop_dash_literal (fuel n : Nat) (line : Bytes) (i : Nat) (st : PState)
    (hget : line.get? i = some 45) (hprev : prevDelimOrStart line i = false)
    (hdq : st.doubleQuoted = false) (hnull : st.isNull = false) :
    parseLineLoop (fuel + 1) n line i st =
      parseLineLoop fuel n line (i + 1) { st with data := st.data ++ [45] } := by
  rw [List.get?_eq_getElem?] at hget
  simp [prevDelimOrStart] at hprev
  obtain ⟨⟨hi1, hi2⟩, hfdel⟩ := hprev
  rw [if_pos hi1, List.getElem?_eq_getElem hi2] at hfdel
  simp only [Option.getD_some] at hfdel
  simp [parseLineLoop, quoteSlashQuote, hget, hi1, hi2, hfdel, hdq, hnull,
    show isFieldDelimiter 45 = false from rfl]

/-- C4 counterexample: the line a-b has a dash that is not isolated by
delimiters, is outside quotes and is not the double-dash pattern, yet the
tokenizer reports no invalid-null error: it returns the single literal
field a-b. -/
theorem C4_counterexample :
    parseLine 1 (strBytes "a-b") =
      ([{ value := strBytes "a-b", isComment := false, isNull := false, col := 0 }], none) := by
  decide

/-- C4: how the tokenizer actually treats a dash (byte 45).  A dash is
special only at a token start (the previous byte is a field delimiter or
the dash begins the line) outside quotes: there, (1) at the end of the
line it yields a null field; (2) followed by a byte that is not a field
delimiter it yields the invalid-null error; (3) followed by a field
delimiter the scan continues with the null flag set, and (4) the
delimiter step then emits the null field (the double-dash escape of the
source: previous byte a dash, current byte a delimiter); (5) a null flag
still set at the last byte, a delimiter, also emits a null field.  (6) A
dash in the middle of a token is literal content with no error, and (7)
a quoted dash is a literal one-byte dash field; (8) the lines -, - x and
-x evaluate accordingly. -/
theorem C4_null_dash :
    (∀ (fuel n : Nat) (line : Bytes) (i : Nat) (st : PState),
      line.get? i = some 45 → prevDelimOrStart line i = true →
      st.doubleQuoted = false → line.length - 1 = i →
      parseLineLoop (fuel + 1) n line i st =
        (st.str ++ [{ value := [], isComment := false, isNull := true, col := i }], none)) ∧
    (∀ (fuel n : Nat) (line : Bytes) (i : Nat) (st : PState),
      line.get? i = some 45 → prevDelimOrStart line i = true →
      st.doubleQuoted = false → i < line.length - 1 →
      firstDelimIdx (line.drop i) ≠ some 1 →
      parseLineLoop (fuel + 1) n line i st =
        (st.str, some { line := n, fieldPosition := i, columnPosition := i,
                        err := .invalidNull })) ∧
    (∀ (fuel n : Nat) (line : Bytes) (i : Nat) (st : PState),
      line.get? i = some 45 → prevDelimOrStart line i = true →
      st.doubleQuoted = false → i < line.length - 1 →
      firstDelimIdx (line.drop i) = some 1 →
      parseLineLoop (fuel + 1) n line i st =
        parseLineLoop fuel n line (i + 1) { st with isNull := true }) ∧
    (∀ (fuel n : Nat) (line : Bytes) (i : Nat) (st : PState) (c : Nat),
      line.get? i = some c → isFieldDelimiter c = true → c ≠ 10 →
      st.isNull = true → st.doubleQuoted = false → 1 ≤ i →
      line.get? (i - 1) = some 45 → i < line.length - 1 →
      parseLineLoop (fuel + 1) n line i st =
        parseLineLoop fuel n line (i + 1)
          { st with isNull := false, data := [],
                    str := st.str ++ [{ value := [], isComment := false, isNull := true,
                                        col := i }] }) ∧
    (∀ (fuel n : Nat) (line : Bytes) (i : Nat) (st : PState) (c : Nat),
      line.get? i = some c → isFieldDelimiter c = true → c ≠ 10 →
      st.isNull = true → line.length - 1 = i →
      parseLineLoop (fuel + 1) n line i st =
        (st.str ++ [{ value := [], isComment := false, isNull := true, col := i }], none)) ∧
    (∀ (fuel n : Nat) (line : Bytes) (i : Nat) (st : PState),
      line.get? i = some 45 → prevDelimOrStart line i = false →
      st.doubleQuoted = false → st.isNull = false →
      parseLineLoop (fuel + 1) n line i st =
        parseLineLoop fuel n line (i + 1) { st with data := st.data ++ [45] }) ∧
    parseLine 1 (strBytes "\"-\"") =
      ([{ value := [45], isComment := false, isNull := false, col := 0 }], none) ∧
    parseLine 1 (strBytes "-") =
      ([{ value := [], isComment := false, isNull := true, col := 0 }], none) ∧
    parseLine 1 (strBytes "- x") =
      ([{ value := [], isComment := false, isNull := true, col := 1 },
        { value := [120], isComment := false, isNull := false, col := 0 }], none) ∧
    parseLine 1 (strBytes "-x") =
      ([], some { line := 1, fieldPosition := 0, columnPosition := 0,
                  err := .invalidNull }) := by
  refine ⟨parseLineLoop_dash_end, parseLineLoop_dash_invalid, parseLineLoop_dash_cont,
    ?_, ?_, parseLineLoop_dash_literal, by decide, by decide, by decide, by decide⟩
  · intro fuel n line i st c hget hdelim h10 hnull hdq h1 h2 hlt
    exact parseLineLoop_nullDelim_emit fuel n line i st c hget hdelim h10 hnull hdq h1 h2 hlt
  · intro fuel n line i st c hget hdelim h10 hnull hend
    exact parseLineLoop_nullDelim_end fuel n line i st c hget hdelim h10 hnull hend

/-- C4 witness: the dash rules applied to concrete lines: a lone dash is
a null field, the line -x is the invalid-null error, the space after the
dash of - x emits the null field, and the dash of a-b at index 1 is
appended as literal data. -/
theorem C4_witness :
    (parseLineLoop 2 7 (strBytes "-") 0 {} =
      ([{ value := [], isComment := false, isNull := true, col := 0 }], none)) ∧
    (parseLineLoop 3 7 (strBytes "-x") 0 {} =
      ([], some { line := 7, fieldPosition := 0, columnPosition := 0,
                  err := .invalidNull })) ∧
    (parseLineLoop 3 7 (strBytes "- x") 1 { isNull := true } =
      parseLineLoop 2 7 (strBytes "- x") 2
        { isNull := false, data := [],
          str := [{ value := [], isComment := false, isNull := true, col := 1 }] }) ∧
    (parseLineLoop 3 7 (strBytes "a-b") 1 { data := [97] } =
      parseLineLoop 2 7 (strBytes "a-b") 2 { data := [97, 45] }) := by
  refine ⟨?_, ?_, ?_, ?_⟩
  · exact C4_null_dash.1 1 7 (strBytes "-") 0 {} (by decide) (by decide) rfl (by decide)
  · exact C4_null_dash.2.1 2 7 (strBytes "-x") 0 {} (by decide) (by decide) rfl
      (by decide) (by decide)
  · exact C4_null_dash.2.2.2.1 2 7 (strBytes "- x") 1 { isNull := true } 32 (by decide)
      (by decide) (by decide) rfl rfl (by decide) (by decide) (by decide)
  · exact C4_null_dash.2.2.2.2.2.1 2 7 (strBytes "a-b") 1 { data := [97] } (by decide)
      (by decide) rfl rfl

theorem containsSub_cons (a : Nat) (t pat : Bytes) :
    containsSub (a :: t) pat = (isPrefixOfB pat (a :: t) || containsSub t pat) := rfl

theorem containsSub_nil (pat : Bytes) : containsSub [] pat = isPrefixOfB pat [] := by
  rw [containsSub]
  exact Bool.or_false _

theorem replaceAllF_single (b : Nat) (rep : Bytes) :
    ∀ (s : Bytes) (f : Nat), s.length ≤ f → replaceAllF f s [b] rep = replace1 b rep s := by
  intro s
  induction s with
  | nil => intro f _; cases f <;> simp [replaceAllF, replace1]
  | cons c t ih =>
    intro f hf
    cases f with
    | zero => simp at hf
    | succ f =>
      have hf' : t.length ≤ f := by simpa using hf
      by_cases hbc : (b == c) = true
      · simp [replaceAllF, replace1, isPrefixOfB, hbc, ih f hf']
      · simp only [Bool.not_eq_true] at hbc
        simp [replaceAllF, replace1, isPrefixOfB, hbc, ih f hf']

theorem replaceAll_single (s : Bytes) (b : Nat) (rep : Bytes) :
    replaceAll s [b] rep = replace1 b rep s :=
  replaceAllF_single b rep s s.length (Nat.le_refl _)

theorem containsSub_single (s : Bytes) (d : Nat) : containsSub s [d] = hasByte s d := by
  induction s with
  | nil => simp [containsSub_nil, isPrefixOfB, hasByte]
  | cons c t ih => simp [containsSub_cons, isPrefixOfB, hasByte, ih]

theorem hasByte_append (x y : Bytes) (d : Nat) :
    hasByte (x ++ y) d = (hasByte x d || hasByte y d) := by
  induction x with
  | nil => simp [hasByte]
  | cons c t ih => simp [hasByte, ih, Bool.or_assoc]

theorem containsSub_append_right (x y pat : Bytes) (h : containsSub y pat = true) :
    containsSub (x ++ y) pat = true := by
  induction x with
  | nil => simpa using h
  | cons a t ih => simp [containsSub_cons, ih]

theorem doubling_pair (s : Bytes) :
    containsSub (replace1 34 [34, 34] s) [34, 34] = hasByte s 34 := by
  induction s with
  | nil => simp [replace1, containsSub_nil, isPrefixOfB, hasByte]
  | cons c t ih =>
    by_cases h : c = 34
    · subst h
      simp [replace1, containsSub_cons, isPrefixOfB, hasByte]
    · have hbc : (34 == c) = false := by simp [Ne.symm h]
      simp [replace1, containsSub_cons, isPrefixOfB, hasByte, hbc, ih]

theorem hasByte_replace1_free (b : Nat) (rep : Bytes) (d : Nat)
    (hrep : hasByte rep d = false) (hbd : d ≠ b) :
    ∀ s : Bytes, hasByte (replace1 b rep s) d = hasByte s d := by
  intro s
  induction s with
  | nil => simp [replace1]
  | cons c t ih =>
    by_cases h : (b == c) = true
    · have hc : b = c := by simpa using h
      subst hc
      simp [replace1, hasByte_append, hasByte, ih, hrep, hbd]
    · simp [replace1, h, hasByte_append, hasByte, ih]

theorem hasByte_wrapQ (s : Bytes) (d : Nat) (hd : d ≠ 34) :
    hasByte (wrapQ s) d = hasByte s d := by
  have hbd : (d == 34) = false := by simp [hd]
  simp [wrapQ, hasByte, hasByte_append, hbd]

theorem replace1_append (b : Nat) (rep x y : Bytes) :
    replace1 b rep (x ++ y) = replace1 b rep x ++ replace1 b rep y := by
  induction x with
  | nil => simp [replace1]
  | cons c t ih => simp [replace1, ih]

theorem replace1_wrapQ10 (rep s : Bytes) :
    replace1 10 rep (wrapQ s) = wrapQ (replace1 10 rep s) := by
  simp [wrapQ, replace1, replace1_append]

theorem replace1_id (b : Nat) (rep : Bytes) :
    ∀ s : Bytes, hasByte s b = false → replace1 b rep s = s := by
  intro s
  induction s with
  | nil => intro _; rfl
  | cons c t ih =>
    intro h
    simp only [hasByte, Bool.or_eq_false_iff] at h
    simp [replace1, h.1, ih h.2]

theorem pair_preserved (tok : Bytes) :
    ∀ s : Bytes, containsSub s [34, 34] = true →
      containsSub (replace1 10 tok s) [34, 34] = true := by
  intro s
  induction s with
  | nil => intro h; simp [containsSub_nil, isPrefixOfB] at h
  | cons c t ih =>
    intro h
    rw [containsSub_cons, Bool.or_eq_true] at h
    rcases h with h | h
    · cases t with
      | nil => simp [isPrefixOfB] at h
      | cons d t' =>
        simp only [isPrefixOfB, Bool.and_eq_true, beq_iff_eq] at h
        have hc : 34 = c := h.1
        have hd : 34 = d := h.2.1
        subst hc; subst hd
        simp [replace1, containsSub_cons, isPrefixOfB]
    · exact containsSub_append_right _ _ _ (ih h)

theorem tok_present (s : Bytes) (h : hasByte s 10 = true) :
    containsSub (replace1 10 [34, 47, 34] s) [34, 47, 34] = true := by
  induction s with
  | nil => simp [hasByte] at h
  | cons c t ih =>
    rw [hasByte, Bool.or_eq_true] at h
    rcases h with h | h
    · have hc : 10 = c := by simpa using h
      subst hc
      simp [replace1, containsSub_cons, isPrefixOfB]
    · exact containsSub_append_right _ _ _ (ih h)

theorem no34_noSub (s t : Bytes) (h : hasByte s 34 = false) :
    containsSub s (34 :: t) = false := by
  induction s with
  | nil => simp [containsSub_nil, isPrefixOfB]
  | cons c s' ih =>
    rw [hasByte, Bool.or_eq_false_iff] at h
    have hc : ¬ (34 = c) := by simpa using h.1
    simp [containsSub_cons, isPrefixOfB, hc, ih h.2]

theorem ne_nil_of_hasByte (s : Bytes) (b : Nat) (h : hasByte s b = true) : s ≠ [] := by
  cases s with
  | nil => simp [hasByte] at h
  | cons c t => exact List.cons_ne_nil c t

theorem ne_nil_of_containsFuncB (f : Nat → Bool) (s : Bytes)
    (h : containsFuncB f s = true) : s ≠ [] := by
  cases s with
  | nil => simp [containsFuncB] at h
  | cons c t => exact List.cons_ne_nil c t

theorem wrapQ_ne_nil (s : Bytes) : ¬(wrapQ s = []) := by simp [wrapQ]

theorem hasByte45_R2 : ∀ s : Bytes, hasByte (replace1 34 [34, 34] s) 45 = hasByte s 45 :=
  hasByte_replace1_free 34 [34, 34] 45 (by decide) (by decide)

theorem hasByte45_R10 : ∀ s : Bytes, hasByte (replace1 10 [34, 47, 34] s) 45 = hasByte s 45 :=
  hasByte_replace1_free 10 [34, 47, 34] 45 (by decide) (by decide)

theorem hasByte45_wrapQ : ∀ s : Bytes, hasByte (wrapQ s) 45 = hasByte s 45 :=
  fun s => hasByte_wrapQ s 45 (by decide)


/-- C3 counterexample: the value consisting of a double quote then a dash.
The claim predicts quote-doubling followed by a single wrap, the five
bytes quote quote quote dash quote; the implementation wraps once for the
quote pair and once more for the dash (the dash check has no
already-wrapped guard), emitting seven bytes. -/
theorem C3_counterexample :
    serializeValue (strBytes "\"-") = strBytes "\"\"\"\"-\"\"" ∧
    serializeValue (strBytes "\"-") ≠ strBytes "\"\"\"-\"" := by
  decide

/-- C3: what the serializer actually renders.  A null field renders as a
bare dash.  A non-null value is escaped (every double quote doubled, then
every line feed replaced by the quote-slash-quote token) and the escaped
text is wrapped in double quotes when it contains a quote pair, a dash,
the newline token or a field-delimiter byte, or the value is empty (the
empty value renders as a bare quote pair) -- except that a value
containing both a double quote and a dash is wrapped twice, not once.
This is serializeValueSpec, and serializeValue (and with it
Field.serializeText) agrees with it on every value. -/
theorem C3_serializer_rendering :
    (∀ v : Bytes, serializeValue v = serializeValueSpec v) ∧
    (∀ f : Field, f.serializeText = if f.isNull then [45] else serializeValueSpec f.value) := by
  have main : ∀ v : Bytes, serializeValue v = serializeValueSpec v := by
    intro v
    by_cases hp : hasByte v 34 = true
    · have hnil := ne_nil_of_hasByte v 34 hp
      by_cases hq : hasByte v 45 = true
      · simp [serializeValue, serializeValueSpec, replaceAll_single, doubling_pair,
          containsSub_single, hasByte45_R2, hasByte45_R10, hasByte45_wrapQ, replace1_wrapQ10,
          wrapQ_ne_nil, hp, hq, hnil]
      · rw [Bool.not_eq_true] at hq
        have hpair := pair_preserved [34, 47, 34] (replace1 34 [34, 34] v)
          (by rw [doubling_pair]; exact hp)
        simp [serializeValue, serializeValueSpec, replaceAll_single, doubling_pair,
          containsSub_single, hasByte45_R2, hasByte45_R10, hasByte45_wrapQ, replace1_wrapQ10,
          wrapQ_ne_nil, hp, hq, hnil, hpair]
    · rw [Bool.not_eq_true] at hp
      by_cases hq : hasByte v 45 = true
      · have hnil := ne_nil_of_hasByte v 45 hq
        simp [serializeValue, serializeValueSpec, replaceAll_single, doubling_pair,
          containsSub_single, hasByte45_R2, hasByte45_R10, hasByte45_wrapQ, replace1_wrapQ10,
          replace1_id, no34_noSub, wrapQ_ne_nil, hp, hq, hnil]
      · rw [Bool.not_eq_true] at hq
        by_cases h10 : hasByte v 10 = true
        · have hnil := ne_nil_of_hasByte v 10 h10
          have htok := tok_present v h10
          simp [serializeValue, serializeValueSpec, replaceAll_single, doubling_pair,
            containsSub_single, hasByte45_R2, hasByte45_R10, hasByte45_wrapQ, replace1_wrapQ10,
            replace1_id, no34_noSub, wrapQ_ne_nil, hp, hq, hnil, htok]
        · rw [Bool.not_eq_true] at h10
          by_cases hs : containsFuncB isFieldDelimiter v = true
          · have hnil := ne_nil_of_containsFuncB isFieldDelimiter v hs
            simp [serializeValue, serializeValueSpec, replaceAll_single, doubling_pair,
              containsSub_single, hasByte45_R2, hasByte45_R10, hasByte45_wrapQ, replace1_wrapQ10,
              replace1_id, no34_noSub, wrapQ_ne_nil, hp, hq, h10, hnil, hs]
          · rw [Bool.not_eq_true] at hs
            simp [serializeValue, serializeValueSpec, replaceAll_single, doubling_pair,
              containsSub_single, hasByte45_R2, hasByte45_R10, hasByte45_wrapQ, replace1_wrapQ10,
              replace1_id, no34_noSub, wrapQ_ne_nil, hp, hq, h10, hs]
  refine ⟨main, fun f => ?_⟩
  rw [Field.serializeText, main f.value]

end WSV
